import Mathlib

/-!
Verification development for the `dec` crate's arbitrary-precision decimal
module (`src/dec/src/decimal.rs`): a shallow embedding of `Decimal<N>`, the
`Context<Decimal<N>>` configuration and status model, and the operations the
claims touch (`precision`, `quantum_matches`, the configuration setters,
`parse`, the integer constructors, `to_width`, `total_cmp`, `partial_cmp`
and serde deserialization), with theorems settling the claims.

Parts of the repository that live outside `src/` (the `decnumber-sys` C
routines and the `Status`/`Context` plumbing of `context.rs`) are modelled
from the specification; each such definition carries a doc comment starting
with `Modelled from the spec:`.
-/

/-! # Constants from `decnumber-sys`

Bit masks of the `bits` flag byte and the digits-per-unit constant, with the
values the crate is built against (libdecnumber `decNumber.h`, DECDPUN = 3). -/

def DECNEG : Nat := 0x80

def DECINF : Nat := 0x40

def DECNAN : Nat := 0x20

def DECSNAN : Nat := 0x10

/-- `DECINF | DECNAN | DECSNAN`. -/
def DECSPECIAL : Nat := 0x70

def DECDPUN : Nat := 3

/-! # Status

`Status` lives in `context.rs`, outside `src/`. -/

/-- Modelled from the spec: `Status` is "a bitset of exception/condition
flags (inexact, rounded, overflow, underflow, subnormal,
conversion-syntax-error, division-by-zero, invalid-operation, etc.),
accumulated rather than thrown", with an `any()` query and per-flag
setters. `convSyn` is the conversion-syntax flag. -/
structure Status where
  convSyn : Bool
  divByZero : Bool
  inexact : Bool
  invalidOp : Bool
  overflow : Bool
  clamped : Bool
  rounded : Bool
  subnormal : Bool
  underflow : Bool
deriving DecidableEq, Repr

/-- The all-clear status (`Status::default()`). -/
def Status.empty : Status :=
  ⟨false, false, false, false, false, false, false, false, false⟩

/-- Modelled from the spec: `Status::any()`, true when any flag is set. -/
def Status.any (s : Status) : Bool :=
  s.convSyn || s.divByZero || s.inexact || s.invalidOp || s.overflow ||
    s.clamped || s.rounded || s.subnormal || s.underflow

/-- Modelled from the spec: the union of two flag sets, as accumulated by
`Context::add_status`. -/
def Status.union (a b : Status) : Status :=
  ⟨a.convSyn || b.convSyn, a.divByZero || b.divByZero, a.inexact || b.inexact,
   a.invalidOp || b.invalidOp, a.overflow || b.overflow, a.clamped || b.clamped,
   a.rounded || b.rounded, a.subnormal || b.subnormal, a.underflow || b.underflow⟩

/-- `inexact | overflow | rounded`, the set built in `to_width`'s overflow
branch. -/
def statusIOR : Status :=
  { Status.empty with inexact := true, overflow := true, rounded := true }

/-- `inexact | rounded | subnormal | underflow`, the set built in `to_width`'s
underflow branch. -/
def statusIRSU : Status :=
  { Status.empty with inexact := true, rounded := true, subnormal := true,
                      underflow := true }

/-- `inexact | rounded`, the set built in `to_width`'s precision branch. -/
def statusIR : Status :=
  { Status.empty with inexact := true, rounded := true }

/-! # The decimal number and its context -/

/-- The value type of `Decimal<N>`: `digits: u32`, `exponent: i32`,
`bits: u8`, `lsu: [u16; N]` (little-endian base-1000 units). The capacity
`N` is carried by the functions that need it; a well-formed value has
`lsu.length = N`. -/
structure Dec where
  digits : Nat
  exponent : Int
  bits : Nat
  lsu : List Nat
deriving DecidableEq, Repr

/-- `Context<Decimal<N>>`: precision (`digits`, an `i32`), exponent bounds
`emax`/`emin`, the clamping flag, and the accumulated status. The rounding
mode of `DEC_INIT_BASE` is half-up and the crate never changes it, so it is
left implicit. -/
structure Ctx where
  digits : Int
  emax : Int
  emin : Int
  clamp : Bool
  status : Status
deriving DecidableEq, Repr

/-- `Context::<Decimal<N>>::default()`: precision `N * DECDPUN`, exponent
bounds ±999,999,999, clamping off, clear status. (In the source the
precision assignment is `i32::try_from(N * DECDPUN).expect(..)`, so a
context only comes into existence when `3 * N` fits in an `i32`; theorems
that need this carry it as a hypothesis.) -/
def Ctx.default (n : Nat) : Ctx :=
  ⟨(n * DECDPUN : Nat), 999999999, -999999999, false, Status.empty⟩

/-- Modelled from the spec: `Context::add_status` unions a flag set into the
accumulated status. -/
def Ctx.addStatus (cx : Ctx) (s : Status) : Ctx :=
  { cx with status := cx.status.union s }

/-! # Coefficient units -/

/-- The value of the little-endian base-1000 unit list (`lsu`). -/
def lsuVal : List Nat → Nat
  | [] => 0
  | u :: rest => u + 1000 * lsuVal rest

/-- The canonical `n`-unit little-endian base-1000 encoding of `c`. -/
def toLsu : Nat → Nat → List Nat
  | 0, _ => []
  | n + 1, c => c % 1000 :: toLsu n (c / 1000)

/-- The number of decimal digits of `c`, counting `0` as one digit. -/
def numDigits (c : Nat) : Nat :=
  if _h : c < 10 then 1 else numDigits (c / 10) + 1
termination_by c
decreasing_by exact Nat.div_lt_self (by omega) (by omega)

/-! # Representation queries (`impl Decimal<N>`) -/

/-- `Decimal::is_finite`: `(bits & DECSPECIAL) == 0`. -/
def Dec.isFinite (d : Dec) : Bool := d.bits &&& DECSPECIAL == 0

/-- `Decimal::is_infinite`: `(bits & DECINF) != 0`. -/
def Dec.isInfinite (d : Dec) : Bool := d.bits &&& DECINF != 0

/-- `Decimal::is_nan`: `(bits & (DECNAN | DECSNAN)) != 0`. -/
def Dec.isNan (d : Dec) : Bool := d.bits &&& (DECNAN ||| DECSNAN) != 0

/-- `Decimal::is_negative`: `(bits & DECNEG) != 0`. -/
def Dec.isNegative (d : Dec) : Bool := d.bits &&& DECNEG != 0

/-- `Decimal::is_quiet_nan`: `(bits & DECNAN) != 0`. -/
def Dec.isQuietNan (d : Dec) : Bool := d.bits &&& DECNAN != 0

/-- `Decimal::is_signaling_nan`: `(bits & DECSNAN) != 0`. -/
def Dec.isSignalingNan (d : Dec) : Bool := d.bits &&& DECSNAN != 0

/-- `Decimal::is_special`: `(bits & DECSPECIAL) != 0`. -/
def Dec.isSpecial (d : Dec) : Bool := d.bits &&& DECSPECIAL != 0

/-- `Decimal::is_zero`: finite, first unit zero, one digit. -/
def Dec.isZero (d : Dec) : Bool :=
  d.isFinite && d.lsu.headD 0 == 0 && d.digits == 1

/-- `Decimal::<N>::zero()` (also `default()`): `decNumberZero` yields one
digit, exponent 0, clear bits, zero coefficient. -/
def Dec.zero (n : Nat) : Dec := ⟨1, 0, 0, List.replicate n 0⟩

/-- `Decimal::<N>::infinity()`: the default with `bits = DECINF`. -/
def Dec.infinity (n : Nat) : Dec := ⟨1, 0, DECINF, List.replicate n 0⟩

/-- `Decimal::<N>::nan()`: the default with `bits = DECNAN`. -/
def Dec.nan (n : Nat) : Dec := ⟨1, 0, DECNAN, List.replicate n 0⟩

/-- Modelled from the spec: `decNumberCopyNegate` (used by `Neg` and
`Context::neg`) inverts the sign bit and touches nothing else; "the
zero-cost sign-flip `neg`, which never raises and never rounds". -/
def Dec.negate (d : Dec) : Dec := { d with bits := d.bits ^^^ DECNEG }

/-- `Decimal::precision` (decimal.rs lines 131-142): digits plus exponent
when the exponent is non-negative; `|exponent|` when that exceeds the digit
count; otherwise the digit count. -/
def Dec.precision (d : Dec) : Nat :=
  if 0 ≤ d.exponent then d.digits + d.exponent.natAbs
  else if d.digits < d.exponent.natAbs then d.exponent.natAbs
  else d.digits

/-- The signed rational value of a finite decimal:
`(-1)^sign * coefficient * 10^exponent`. -/
def Dec.val (d : Dec) : ℚ :=
  (if d.isNegative then -1 else 1) *
    (lsuVal d.lsu : ℚ) *
      (if 0 ≤ d.exponent then ((10 : ℚ) ^ d.exponent.toNat)
       else ((10 : ℚ) ^ (-d.exponent).toNat)⁻¹)

/-- The spec-side digit count of writing `c · 10^e` in standard positional
notation: for `e ≥ 0` the minimal numeral of `c` followed by `e` padding
zeros; for `e < 0` exactly `|e|` fractional digits plus the digits of the
integer part `c / 10^|e|` (which contributes nothing when the value is
below 1, its leading zero not being counted). -/
def positionalDigits (c : Nat) (e : Int) : Nat :=
  if 0 ≤ e then numDigits c + e.toNat
  else
    (if c < 10 ^ (-e).toNat then 0 else numDigits (c / 10 ^ (-e).toNat)) +
      (-e).toNat

/-- The adjusted (scientific) exponent of a finite decimal:
`digits + exponent - 1`. -/
def Dec.adjExp (d : Dec) : Int := (d.digits : Int) + d.exponent - 1

/-! # Quantum test -/

/-- Modelled from the spec: `decNumberSameQuantum`, wrapped by
`Decimal::quantum_matches` (decimal.rs lines 198-214): "Quantums are
considered to match if the numbers have the same exponent, are both NaNs,
or both infinite" — with either operand special, only the both-infinite /
both-NaN cases match. -/
def Dec.quantumMatches (a b : Dec) : Bool :=
  if a.isSpecial || b.isSpecial then
    (a.isInfinite && b.isInfinite) || (a.isNan && b.isNan)
  else a.exponent == b.exponent

/-! # Context configuration setters (decimal.rs lines 702-767)

Each models `&mut self` plus the returned `Result` as an `(ok, new state)`
pair: `false` stands for the `Err` of the unit error struct. -/

/-- `Context::set_precision`: range check `[1, N * DECDPUN]`, then the
`i32::try_from` conversion (which fails when the precision exceeds
`i32::MAX = 2147483647`), then the assignment. -/
def Ctx.setPrecision (n : Nat) (cx : Ctx) (p : Nat) : Bool × Ctx :=
  if p < 1 ∨ p > n * DECDPUN then (false, cx)
  else if p > 2147483647 then (false, cx)
  else (true, { cx with digits := (p : Int) })

/-- `Context::set_max_exponent`: `Err` when negative or above 999,999,999
(the `i32::try_from` conversion cannot fail in that range). -/
def Ctx.setMaxExponent (cx : Ctx) (e : Int) : Bool × Ctx :=
  if e < 0 ∨ e > 999999999 then (false, cx) else (true, { cx with emax := e })

/-- `Context::set_min_exponent`: `Err` when positive or below -999,999,999. -/
def Ctx.setMinExponent (cx : Ctx) (e : Int) : Bool × Ctx :=
  if e > 0 ∨ e < -999999999 then (false, cx) else (true, { cx with emin := e })

/-! # Parsing (decimal.rs lines 770-790) -/

/-- `CString::new` fails when the byte vector holds a NUL anywhere. -/
def hasNul (s : List Char) : Bool := s.any (fun c => c.toNat == 0)

/-- A leading `+`/`-` sign removed. -/
def stripSign : List Char → List Char
  | [] => []
  | c :: rest => if c = '+' ∨ c = '-' then rest else c :: rest

/-- The optional exponent clause of a numeric string: empty, or an
`e`/`E` marker, an optional sign and at least one digit. -/
def expPartOk : List Char → Bool
  | [] => true
  | c :: rest =>
    (c == 'e' || c == 'E') &&
      (let r := stripSign rest
       !r.isEmpty && r.all Char.isDigit)

/-- The body of a numeric string after the sign: digits with an optional
decimal point (at least one digit overall), then the exponent clause. -/
def numericOk (cs : List Char) : Bool :=
  let ip := cs.takeWhile Char.isDigit
  let rest := cs.dropWhile Char.isDigit
  match rest with
  | '.' :: rest2 =>
    let fp := rest2.takeWhile Char.isDigit
    let rest3 := rest2.dropWhile Char.isDigit
    (!ip.isEmpty || !fp.isEmpty) && expPartOk rest3
  | _ => !ip.isEmpty && expPartOk rest

/-- The special tokens: `inf`, `infinity`, `nan`/`snan` with an optional
digit payload, case-insensitive. -/
def specialOk (cs : List Char) : Bool :=
  let low := cs.map Char.toLower
  low == ['i', 'n', 'f'] ||
    low == ['i', 'n', 'f', 'i', 'n', 'i', 't', 'y'] ||
      (low.take 3 == ['n', 'a', 'n'] && (low.drop 3).all Char.isDigit) ||
        (low.take 4 == ['s', 'n', 'a', 'n'] && (low.drop 4).all Char.isDigit)

/-- Modelled from the spec: the General Decimal Arithmetic lexical rules for
a parseable string — "optional sign, digits, optional decimal point,
optional exponent marker, or special tokens for infinity/NaN with optional
diagnostic payload for NaN". -/
def decGrammar (s : List Char) : Bool :=
  let body := stripSign s
  numericOk body || specialOk body

/-- The numeric value of a digit string. -/
def digitsToNat (cs : List Char) : Nat :=
  cs.foldl (fun a c => 10 * a + (c.toNat - 48)) 0

/-- The value of the exponent clause (marker, optional sign, digits). -/
def expClauseVal : List Char → Int
  | [] => 0
  | _ :: rest =>
    match rest with
    | '-' :: ds => -(digitsToNat ds : Int)
    | '+' :: ds => (digitsToNat ds : Int)
    | ds => (digitsToNat ds : Int)

/-- Modelled from the spec: the decimal built from a well-formed string
(sign, coefficient digits around an optional point, exponent clause;
special tokens give infinity/NaN). Rounding of over-long coefficients to
the context precision is not modelled; no claim depends on the value. -/
def parseDec (n : Nat) (s : List Char) : Dec :=
  let neg : Bool := match s with | c :: _ => c == '-' | [] => false
  let sb := if neg then DECNEG else 0
  let body := stripSign s
  let low := body.map Char.toLower
  if low == ['i', 'n', 'f'] || low == ['i', 'n', 'f', 'i', 'n', 'i', 't', 'y'] then
    ⟨1, 0, DECINF ||| sb, List.replicate n 0⟩
  else if low.take 4 == ['s', 'n', 'a', 'n'] then
    let payload := digitsToNat (low.drop 4)
    ⟨numDigits payload, 0, DECSNAN ||| sb, toLsu n payload⟩
  else if low.take 3 == ['n', 'a', 'n'] then
    let payload := digitsToNat (low.drop 3)
    ⟨numDigits payload, 0, DECNAN ||| sb, toLsu n payload⟩
  else
    let ip := body.takeWhile Char.isDigit
    let rest := body.dropWhile Char.isDigit
    let fp := match rest with
      | '.' :: rest2 => rest2.takeWhile Char.isDigit
      | _ => []
    let tail := match rest with
      | '.' :: rest2 => rest2.dropWhile Char.isDigit
      | _ => rest
    let coeff := digitsToNat (ip ++ fp)
    ⟨numDigits coeff, expClauseVal tail - fp.length, sb, toLsu n coeff⟩

/-- Modelled from the spec: `decNumberFromString` parses per the lexical
rules above, and on malformed input raises the conversion-syntax condition
in the context and yields a quiet NaN. -/
def fromString (n : Nat) (cx : Ctx) (s : List Char) : Dec × Ctx :=
  if decGrammar s then (parseDec n s, cx)
  else (Dec.nan n, { cx with status := { cx.status with convSyn := true } })

/-- `Context::<Decimal<N>>::parse` (decimal.rs lines 770-790): `Err` when
`CString::new` rejects a NUL byte; otherwise `decNumberFromString` runs
against the context, and the result is `Err` exactly when the context's
accumulated status carries the conversion-syntax flag afterwards. -/
def Ctx.parse (n : Nat) (cx : Ctx) (s : List Char) : Except Unit Dec × Ctx :=
  if hasNul s then (.error (), cx)
  else
    let r := fromString n cx s
    if r.2.status.convSyn then (.error (), r.2) else (.ok r.1, r.2)

/-! # Construction from machine integers -/

/-- Modelled from the spec: the `decnum_from_signed_int!` /
`decnum_from_unsigned_int!` macros (outside `src/`) build a decimal from a
machine integer through context arithmetic: "always exact for magnitudes
representable within the storage capacity", otherwise rounded to the
context precision (half-up, the default), setting `rounded` and — when the
discarded digits are non-zero — `inexact`. Used by `From<i64>/<u64>/<i128>/
<u128>` (decimal.rs lines 333-367) and `from_i128`/`from_u128`. -/
def Ctx.fromInt (n : Nat) (cx : Ctx) (v : Int) : Dec × Ctx :=
  let c := v.natAbs
  let s := if v < 0 then DECNEG else 0
  let p := cx.digits.toNat
  if c < 10 ^ p then
    (⟨numDigits c, 0, s, toLsu n c⟩, cx)
  else
    let k := numDigits c - p
    let q := c / 10 ^ k
    let r := c % 10 ^ k
    let c2 := if 10 ^ k ≤ 2 * r then q + 1 else q
    (⟨numDigits c2, (k : Int), s, toLsu n c2⟩,
     { cx with status := { cx.status with
                           rounded := true,
                           inexact := cx.status.inexact || r != 0 } })

/-! # Rescale and width-casting -/

/-- Modelled from the spec: `decNumberRescale` gives the operand the target
exponent, preserving the numeric value where possible: padding with zeros
when the exponent decreases, otherwise discarding digits with half-up
rounding, setting `rounded` when digits are discarded and `inexact` when
the discarded digits are non-zero. (The invalid-operation path for results
exceeding the context precision is not modelled; no claim reaches it.) -/
def rescale (sz : Nat) (cx : Ctx) (d : Dec) (e : Int) : Dec × Ctx :=
  if e ≤ d.exponent then
    let c := lsuVal d.lsu * 10 ^ (d.exponent - e).toNat
    (⟨numDigits c, e, d.bits, toLsu sz c⟩, cx)
  else
    let k := (e - d.exponent).toNat
    let c := lsuVal d.lsu
    let q := c / 10 ^ k
    let r := c % 10 ^ k
    let c2 := if 10 ^ k ≤ 2 * r then q + 1 else q
    (⟨numDigits c2, e, d.bits, toLsu sz c2⟩,
     { cx with status := { cx.status with
                           rounded := true,
                           inexact := cx.status.inexact || r != 0 } })

/-- `Context::<Decimal<N>>::to_width::<M>` (decimal.rs lines 1330-1399).
`none` models the `assert!(cx_m.status().inexact())` panic in the
underflow branch; every other path is the source's: the overflow branch
returns signed infinity after adding `inexact|overflow|rounded`; the
underflow branch rescales the source to `emin` in a fresh default
`Context<Decimal<M>>` and adds `inexact|rounded|subnormal|underflow`; the
precision branch rescales to fit `self.precision()` digits and adds
`inexact|rounded`; finally the units are copied into the target capacity. -/
def Ctx.toWidth (n mSz : Nat) (cx : Ctx) (m : Dec) : Option (Dec × Ctx) :=
  let mPrecision := m.precision
  if 0 ≤ m.exponent ∧ (mPrecision : Int) > cx.emax then
    let cx1 := cx.addStatus statusIOR
    let r := Dec.infinity n
    some (if m.isNegative then r.negate else r, cx1)
  else
    let step :=
      if m.exponent < 0 ∧ (mPrecision : Int) > |cx.emin| then
        let res := rescale mSz (Ctx.default mSz) m cx.emin
        if res.2.status.inexact then some (res.1, cx.addStatus statusIRSU)
        else none
      else some (m, cx)
    match step with
    | none => none
    | some (m1, cx1) =>
      let m2cx2 :=
        if (m1.digits : Int) > cx1.digits then
          let precisionDiff := (m1.digits : Int) - cx1.digits
          let res := rescale mSz (Ctx.default mSz) m1 (m1.exponent + precisionDiff)
          (res.1, cx1.addStatus statusIR)
        else (m1, cx1)
      let m2 := m2cx2.1
      let len := min n mSz
      some (⟨m2.digits, m2.exponent, m2.bits,
             m2.lsu.take len ++ List.replicate (n - len) 0⟩, m2cx2.2)

/-! # Comparisons -/

/-- Three-way comparison from a linear order. -/
def cmpVia {α : Type} [LinearOrder α] (x y : α) : Ordering :=
  if x < y then .lt else if x = y then .eq else .gt

/-- Lexicographic three-way comparison of the total-order keys. -/
def cmp3 (x y : Int × ℚ × Int) : Ordering :=
  (cmpVia x.1 y.1).then ((cmpVia x.2.1 y.2.1).then (cmpVia x.2.2 y.2.2))

/-- Modelled from the spec: the IEEE 754-2008 total-order key realised by
`decNumberCompareTotal` — "orders by sign first, then magnitude, then (for
equal magnitude but differing exponent) by exponent, and resolves
NaNs/infinities deterministically (quiet vs signaling, payload)":
negative quiet NaN < negative signaling NaN < -Inf < finite (by signed
value, ties by exponent) < +Inf < positive signaling NaN < positive quiet
NaN, NaNs of one sign ordered by payload. -/
def totalKey (d : Dec) : Int × ℚ × Int :=
  let s : Int := if d.isNegative then -1 else 1
  let sq : ℚ := if d.isNegative then -1 else 1
  if d.isQuietNan then (s * 4, sq * (lsuVal d.lsu : ℚ), 0)
  else if d.isSignalingNan then (s * 3, sq * (lsuVal d.lsu : ℚ), 0)
  else if d.isInfinite then (s * 2, 0, 0)
  else (s, d.val, s * d.exponent)

/-- `Context::<Decimal<N>>::total_cmp` (decimal.rs lines 1291-1311): the
sign of `decNumberCompareTotal`'s result decimal, as an `Ordering`. -/
def totalCmp (a b : Dec) : Ordering := cmp3 (totalKey a) (totalKey b)

/-- Lexicographic three-way comparison of the numeric-order keys. -/
def cmp2 (x y : Int × ℚ) : Ordering :=
  (cmpVia x.1 y.1).then (cmpVia x.2 y.2)

/-- Modelled from the spec: the numeric-order key of `decNumberCompare` for
non-NaN operands: -Inf below every finite value, +Inf above. -/
def numKey (d : Dec) : Int × ℚ :=
  if d.isInfinite then (if d.isNegative then -2 else 2, 0) else (0, d.val)

/-- `Context::<Decimal<N>>::partial_cmp` (decimal.rs lines 1107-1129):
`None` when either operand is a NaN (`decNumberCompare` yields NaN), else
the numeric ordering. -/
def decCompare (a b : Dec) : Option Ordering :=
  if a.isNan || b.isNan then none else some (cmp2 (numKey a) (numKey b))

/-- `impl PartialEq for Decimal<N>` (decimal.rs lines 271-275):
`self.partial_cmp(other) == Some(Ordering::Equal)`. -/
def decEqOp (a b : Dec) : Bool := decCompare a b == some Ordering.eq

/-! # Serde deserialization (decimal.rs lines 568-688)

The serde driver is abstracted to a list of typed field entries; the
decision logic of `DecimalVisitor::visit_map` is the source's. -/

/-- One map entry seen by `visit_map`: a recognised field key with its
typed value (`digits: u32`, `exponent: i32`, `bits: u8`,
`lsu: Vec<u16>`). -/
inductive DeEntry : Type
  | digits (v : Nat)
  | exponent (v : Int)
  | bits (v : Nat)
  | lsu (v : List Nat)
deriving DecidableEq, Repr

/-- The deserialization errors `visit_map` can raise: a duplicated field
(naming a field), a missing field, or an `lsu` whose length is not `N`
(`invalidValue got expected` carries the found and the expected length,
as the source's "&[u16] of length {}" texts do). -/
inductive DeError : Type
  | duplicateField (f : String)
  | missingField (f : String)
  | invalidValue (got expected : Nat)
deriving DecidableEq, Repr

/-- The `while let Some(key) = map.next_key()?` loop of `visit_map`: fills
the four option slots, failing on a duplicate. (The source's duplicate
errors for `bits` and `lsu` name "exponent" — a copy-paste slip kept
here.) -/
def vLoop : List DeEntry → Option Nat → Option Int → Option Nat →
    Option (List Nat) →
    Except DeError (Option Nat × Option Int × Option Nat × Option (List Nat))
  | [], d, e, b, l => .ok (d, e, b, l)
  | .digits v :: rest, d, e, b, l =>
    if d.isSome then .error (.duplicateField "digits")
    else vLoop rest (some v) e b l
  | .exponent v :: rest, d, e, b, l =>
    if e.isSome then .error (.duplicateField "exponent")
    else vLoop rest d (some v) b l
  | .bits v :: rest, d, e, b, l =>
    if b.isSome then .error (.duplicateField "exponent")
    else vLoop rest d e (some v) l
  | .lsu v :: rest, d, e, b, l =>
    if l.isSome then .error (.duplicateField "exponent")
    else vLoop rest d e b (some v)

/-- `DecimalVisitor::visit_map` (decimal.rs lines 626-682): the key loop,
the four missing-field checks, then the `lsu.try_into()` length check
against `N`. -/
def visitMap (n : Nat) (es : List DeEntry) : Except DeError Dec :=
  match vLoop es none none none none with
  | .error err => .error err
  | .ok (od, oe, ob, ol) =>
    match od with
    | none => .error (.missingField "digits")
    | some d =>
      match oe with
      | none => .error (.missingField "exponent")
      | some e =>
        match ob with
        | none => .error (.missingField "bits")
        | some b =>
          match ol with
          | none => .error (.missingField "lsu")
          | some l =>
            if l.length = n then .ok ⟨d, e, b, l⟩
            else .error (.invalidValue l.length n)

/-- The number of `digits` entries in a map. -/
def cntD (es : List DeEntry) : Nat :=
  es.countP (fun x => match x with | .digits _ => true | _ => false)

/-- The number of `exponent` entries in a map. -/
def cntE (es : List DeEntry) : Nat :=
  es.countP (fun x => match x with | .exponent _ => true | _ => false)

/-- The number of `bits` entries in a map. -/
def cntB (es : List DeEntry) : Nat :=
  es.countP (fun x => match x with | .bits _ => true | _ => false)

/-- The number of `lsu` entries in a map. -/
def cntL (es : List DeEntry) : Nat :=
  es.countP (fun x => match x with | .lsu _ => true | _ => false)

/-- The `lsu` values of a map, in order. -/
def lsuEntries (es : List DeEntry) : List (List Nat) :=
  es.filterMap (fun x => match x with | .lsu v => some v | _ => none)

/-! # Helper lemmas -/

theorem numDigits_lt10 {c : Nat} (h : c < 10) : numDigits c = 1 := by
  unfold numDigits
  simp [h]

theorem numDigits_ge10 {c : Nat} (h : 10 ≤ c) :
    numDigits c = numDigits (c / 10) + 1 := by
  conv_lhs => unfold numDigits
  simp [Nat.not_lt.mpr h]

theorem lt_pow_numDigits (c : Nat) : c < 10 ^ numDigits c := by
  induction c using Nat.strong_induction_on with
  | _ c ih =>
    by_cases h : c < 10
    · rw [numDigits_lt10 h]
      simpa using h
    · rw [numDigits_ge10 (by omega)]
      have hlt : c / 10 < c := Nat.div_lt_self (by omega) (by omega)
      have h1 := ih (c / 10) hlt
      have h2 := Nat.div_add_mod c 10
      have h3 : c % 10 < 10 := Nat.mod_lt _ (by omega)
      have h4 : c < 10 * (c / 10 + 1) := by omega
      calc c < 10 * (c / 10 + 1) := h4
        _ ≤ 10 * 10 ^ numDigits (c / 10) := by
              have : c / 10 + 1 ≤ 10 ^ numDigits (c / 10) := h1
              exact Nat.mul_le_mul_left _ this
        _ = 10 ^ (numDigits (c / 10) + 1) := by ring

theorem numDigits_le {c k : Nat} (hk : 1 ≤ k) (h : c < 10 ^ k) :
    numDigits c ≤ k := by
  induction c using Nat.strong_induction_on generalizing k with
  | _ c ih =>
    by_cases h10 : c < 10
    · rw [numDigits_lt10 h10]
      omega
    · have hc : 10 ≤ c := by omega
      rw [numDigits_ge10 hc]
      have hk2 : 2 ≤ k := by
        by_contra hcon
        have : k = 1 := by omega
        subst this
        simp at h
        omega
      have hdiv : c / 10 < 10 ^ (k - 1) := by
        have hpow : 10 ^ k = 10 ^ (k - 1) * 10 := by
          rw [← pow_succ]
          congr 1
          omega
        rw [Nat.div_lt_iff_lt_mul (by omega)]
        omega
      have := ih (c / 10) (Nat.div_lt_self (by omega) (by omega)) (by omega) hdiv
      omega

theorem numDigits_gt {c k : Nat} (h : 10 ^ k ≤ c) : k < numDigits c := by
  have h1 := lt_pow_numDigits c
  have h2 : (10 : Nat) ^ k < 10 ^ numDigits c := by omega
  exact (Nat.pow_lt_pow_iff_right (by omega)).mp h2

theorem numDigits_of_bounds {d c : Nat} (h1 : 1 ≤ d) (h2 : 10 ^ (d - 1) ≤ c)
    (h3 : c < 10 ^ d) : numDigits c = d := by
  have ha := numDigits_le h1 h3
  have hb := numDigits_gt h2
  omega

theorem numDigits_div {c : Nat} (k : Nat) (h : 10 ^ k ≤ c) :
    numDigits (c / 10 ^ k) = numDigits c - k := by
  induction k generalizing c with
  | zero => simp
  | succ k ih =>
    have hc : 10 ≤ c := by
      have : (10 : Nat) ≤ 10 ^ (k + 1) := by
        calc (10 : Nat) = 10 ^ 1 := (pow_one 10).symm
          _ ≤ 10 ^ (k + 1) := Nat.pow_le_pow_right (by omega) (by omega)
      omega
    have hsplit : c / 10 ^ (k + 1) = c / 10 / 10 ^ k := by
      rw [Nat.div_div_eq_div_mul]
      congr 1
      rw [pow_succ]
      ring
    have hdge : 10 ^ k ≤ c / 10 := by
      rw [Nat.le_div_iff_mul_le (by omega)]
      calc 10 ^ k * 10 = 10 ^ (k + 1) := (pow_succ 10 k).symm
        _ ≤ c := h
    rw [hsplit, ih hdge, numDigits_ge10 hc]
    omega

theorem lsuVal_toLsu {n c : Nat} (h : c < 1000 ^ n) :
    lsuVal (toLsu n c) = c := by
  induction n generalizing c with
  | zero =>
    simp at h
    simp [toLsu, lsuVal, h]
  | succ n ih =>
    have hdiv : c / 1000 < 1000 ^ n := by
      rw [Nat.div_lt_iff_lt_mul (by omega)]
      calc c < 1000 ^ (n + 1) := h
        _ = 1000 ^ n * 1000 := pow_succ 1000 n
    simp only [toLsu, lsuVal, ih hdiv]
    omega

theorem cmpVia_self {α : Type} [LinearOrder α] (x : α) : cmpVia x x = .eq := by
  simp [cmpVia]

theorem cmpVia_eq_iff {α : Type} [LinearOrder α] {x y : α} :
    cmpVia x y = .eq ↔ x = y := by
  unfold cmpVia
  split_ifs with h1 h2
  · simp
    exact ne_of_lt h1
  · simp [h2]
  · simp
    exact fun hxy => h2 hxy

theorem cmpVia_lt_iff {α : Type} [LinearOrder α] {x y : α} :
    cmpVia x y = .lt ↔ x < y := by
  unfold cmpVia
  split_ifs with h1 h2
  · simp [h1]
  · simp
    exact not_lt.mp h1
  · simp
    exact not_lt.mp h1

theorem cmpVia_gt_iff {α : Type} [LinearOrder α] {x y : α} :
    cmpVia x y = .gt ↔ y < x := by
  unfold cmpVia
  split_ifs with h1 h2
  · simp
    exact le_of_lt h1
  · subst h2
    simp
  · simp
    exact lt_of_le_of_ne (not_lt.mp h1) fun hyx => h2 hyx.symm

theorem cmpVia_swap {α : Type} [LinearOrder α] (x y : α) :
    cmpVia x y = (cmpVia y x).swap := by
  rcases lt_trichotomy x y with h | h | h
  · rw [cmpVia_lt_iff.mpr h, cmpVia_gt_iff.mpr h]
    rfl
  · subst h
    rw [cmpVia_self]
    rfl
  · rw [cmpVia_gt_iff.mpr h, cmpVia_lt_iff.mpr h]
    rfl

theorem ordThen_eq_iff (a b : Ordering) :
    a.then b = .eq ↔ a = .eq ∧ b = .eq := by
  cases a <;> cases b <;> simp [Ordering.then]

theorem ordThen_lt_iff (a b : Ordering) :
    a.then b = .lt ↔ a = .lt ∨ (a = .eq ∧ b = .lt) := by
  cases a <;> cases b <;> simp [Ordering.then]

theorem ordThen_swap (a b : Ordering) :
    (a.then b).swap = a.swap.then b.swap := by
  cases a <;> rfl

theorem cmp3_eq_iff {x y : Int × ℚ × Int} : cmp3 x y = .eq ↔ x = y := by
  unfold cmp3
  rw [ordThen_eq_iff, ordThen_eq_iff, cmpVia_eq_iff, cmpVia_eq_iff, cmpVia_eq_iff]
  constructor
  · rintro ⟨h1, h2, h3⟩
    exact Prod.ext h1 (Prod.ext h2 h3)
  · rintro rfl
    exact ⟨rfl, rfl, rfl⟩

theorem cmp3_lt_iff {x y : Int × ℚ × Int} :
    cmp3 x y = .lt ↔
      x.1 < y.1 ∨ (x.1 = y.1 ∧ (x.2.1 < y.2.1 ∨ (x.2.1 = y.2.1 ∧ x.2.2 < y.2.2))) := by
  unfold cmp3
  rw [ordThen_lt_iff, ordThen_lt_iff, cmpVia_eq_iff, cmpVia_eq_iff,
    cmpVia_lt_iff, cmpVia_lt_iff, cmpVia_lt_iff]

theorem cmp3_self (x : Int × ℚ × Int) : cmp3 x x = .eq := cmp3_eq_iff.mpr rfl

theorem cmp3_swap (x y : Int × ℚ × Int) : cmp3 x y = (cmp3 y x).swap := by
  unfold cmp3
  rw [ordThen_swap, ordThen_swap, ← cmpVia_swap, ← cmpVia_swap, ← cmpVia_swap]

theorem cmp3_trans_lt {x y z : Int × ℚ × Int} (h1 : cmp3 x y = .lt)
    (h2 : cmp3 y z = .lt) : cmp3 x z = .lt := by
  rw [cmp3_lt_iff] at h1 h2 ⊢
  rcases h1 with h1 | ⟨he1, h1⟩
  · rcases h2 with h2 | ⟨he2, h2⟩
    · exact Or.inl (lt_trans h1 h2)
    · exact Or.inl (he2 ▸ h1)
  · rcases h2 with h2 | ⟨he2, h2⟩
    · exact Or.inl (he1 ▸ h2)
    · refine Or.inr ⟨he1.trans he2, ?_⟩
      rcases h1 with h1 | ⟨hq1, h1⟩
      · rcases h2 with h2 | ⟨hq2, h2⟩
        · exact Or.inl (lt_trans h1 h2)
        · exact Or.inl (hq2 ▸ h1)
      · rcases h2 with h2 | ⟨hq2, h2⟩
        · exact Or.inl (hq1 ▸ h2)
        · exact Or.inr ⟨hq1.trans hq2, lt_trans h1 h2⟩

theorem cmp3_trans_eq {x y z : Int × ℚ × Int} (h1 : cmp3 x y = .eq)
    (h2 : cmp3 y z = .eq) : cmp3 x z = .eq := by
  rw [cmp3_eq_iff] at h1 h2 ⊢
  exact h1.trans h2

/-! # C5 — `precision()` -/

/-- C5: for every valid finite `Decimal<N>` (one whose `digits` field is the
actual digit count of its coefficient), `precision()` equals the number of
digits of the standard positional rendering — digits + exponent when the
exponent is non-negative, `|exponent|` when `|exponent|` exceeds the digit
count, and the digit count otherwise. -/
theorem c5_precision (d : Dec) (hdig : d.digits = numDigits (lsuVal d.lsu)) :
    d.precision = positionalDigits (lsuVal d.lsu) d.exponent := by
  unfold Dec.precision positionalDigits
  by_cases he : 0 ≤ d.exponent
  · rw [if_pos he, if_pos he, hdig]
    omega
  · rw [if_neg he, if_neg he]
    have hexp : d.exponent < 0 := by omega
    have hknat : d.exponent.natAbs = (-d.exponent).toNat := by omega
    have hk1 : 1 ≤ (-d.exponent).toNat := by omega
    by_cases hc : lsuVal d.lsu < 10 ^ (-d.exponent).toNat
    · have hle := numDigits_le hk1 hc
      rw [if_pos hc, hdig]
      by_cases h2 : numDigits (lsuVal d.lsu) < d.exponent.natAbs
      · rw [if_pos h2]
        omega
      · rw [if_neg h2]
        omega
    · push_neg at hc
      have hgt := numDigits_gt hc
      have hdive := numDigits_div (-d.exponent).toNat hc
      rw [if_neg (not_lt.mpr hc), hdig]
      have h2 : ¬ numDigits (lsuVal d.lsu) < d.exponent.natAbs := by omega
      rw [if_neg h2]
      omega

/-- Witness for C5 at `123 · 10⁻⁵` in a width-12 decimal. -/
theorem c5_precision_witness :
    (⟨3, -5, 0, toLsu 12 123⟩ : Dec).precision =
      positionalDigits (lsuVal (⟨3, -5, 0, toLsu 12 123⟩ : Dec).lsu) (-5) :=
  c5_precision _ (by simp [toLsu, lsuVal, numDigits])

/-! # C6 — `quantum_matches` -/

theorem isInfinite_false_of_not_special {d : Dec} (h : d.isSpecial = false) :
    d.isInfinite = false := by
  simp only [Dec.isSpecial, bne_eq_false_iff_eq] at h
  simp only [Dec.isInfinite, bne_eq_false_iff_eq]
  have : d.bits &&& DECINF = d.bits &&& DECSPECIAL &&& DECINF := by
    rw [Nat.land_assoc]
    congr 1
  rw [this, h]
  rfl

theorem isNan_false_of_not_special {d : Dec} (h : d.isSpecial = false) :
    d.isNan = false := by
  simp only [Dec.isSpecial, bne_eq_false_iff_eq] at h
  simp only [Dec.isNan, bne_eq_false_iff_eq]
  have : d.bits &&& (DECNAN ||| DECSNAN) = d.bits &&& DECSPECIAL &&& (DECNAN ||| DECSNAN) := by
    rw [Nat.land_assoc]
    congr 1
  rw [this, h]
  rfl

/-- C6 counterexample: the quiet NaN and the zero of width 12 carry the same
`exponent` field (both 0), yet `quantum_matches` returns `false` — the
claim's unguarded "have the same exponent" disjunct fails as soon as
exactly one operand is special. -/
theorem c6_counterexample :
    (Dec.nan 12).exponent = (Dec.zero 12).exponent ∧
      (Dec.nan 12).quantumMatches (Dec.zero 12) = false := by
  constructor
  · rfl
  · decide

/-- C6 (amended): `quantum_matches(a, b)` is true iff both operands are
non-special with equal exponents, or both are infinite, or both are NaN;
in particular it is false whenever exactly one of the pair is special. -/
theorem c6_amended (a b : Dec) :
    (a.quantumMatches b = true ↔
      ((a.isSpecial = false ∧ b.isSpecial = false ∧ a.exponent = b.exponent) ∨
        (a.isInfinite = true ∧ b.isInfinite = true) ∨
          (a.isNan = true ∧ b.isNan = true))) ∧
      (a.isSpecial ≠ b.isSpecial → a.quantumMatches b = false) := by
  constructor
  · unfold Dec.quantumMatches
    by_cases ha : a.isSpecial <;> by_cases hb : b.isSpecial <;>
      simp [ha, hb, isInfinite_false_of_not_special, isNan_false_of_not_special]
  · intro hne
    unfold Dec.quantumMatches
    rcases Bool.eq_false_or_eq_true a.isSpecial with ha | ha <;>
      rcases Bool.eq_false_or_eq_true b.isSpecial with hb | hb
    · exact absurd (ha.trans hb.symm) hne
    · simp [ha, hb, isInfinite_false_of_not_special hb, isNan_false_of_not_special hb]
    · simp [ha, hb, isInfinite_false_of_not_special ha, isNan_false_of_not_special ha]
    · exact absurd (ha.trans hb.symm) hne

/-- Witness for C6's amended claim: `1 · 10⁻¹` and `5 · 10⁻¹` share a
quantum. -/
theorem c6_amended_witness :
    (⟨1, -1, 0, toLsu 12 1⟩ : Dec).quantumMatches ⟨1, -1, 0, toLsu 12 5⟩ = true :=
  (c6_amended _ _).1.mpr (Or.inl ⟨by decide, by decide, rfl⟩)

/-! # C8 — configuration setters -/

/-- C8: for every capacity whose precision bound `N * 3` fits in an `i32`
(the only capacities for which a `Context<Decimal<N>>` can come into
existence — `Context::default()` would panic on the `expect` otherwise),
`set_precision` fails exactly when the requested precision is outside
`[1, 3N]`, `set_max_exponent` exactly when its argument is negative or
above 999,999,999, `set_min_exponent` exactly when its argument is positive
or below −999,999,999, and each setter leaves the configuration unchanged
whenever it fails. -/
theorem c8_setters (n : Nat) (cx : Ctx) (p : Nat) (e : Int)
    (hn : n * DECDPUN ≤ 2147483647) :
    ((Ctx.setPrecision n cx p).1 = false ↔ (p < 1 ∨ n * DECDPUN < p)) ∧
      ((Ctx.setPrecision n cx p).1 = false → (Ctx.setPrecision n cx p).2 = cx) ∧
      ((cx.setMaxExponent e).1 = false ↔ (e < 0 ∨ 999999999 < e)) ∧
      ((cx.setMaxExponent e).1 = false → (cx.setMaxExponent e).2 = cx) ∧
      ((cx.setMinExponent e).1 = false ↔ (0 < e ∨ e < -999999999)) ∧
      ((cx.setMinExponent e).1 = false → (cx.setMinExponent e).2 = cx) := by
  unfold Ctx.setPrecision Ctx.setMaxExponent Ctx.setMinExponent
  refine ⟨?_, ?_, ?_, ?_, ?_, ?_⟩
  all_goals split_ifs
  all_goals simp_all
  all_goals omega

/-- Witness for C8: requesting precision 0 on a width-12 default context
fails. -/
theorem c8_setters_witness :
    (Ctx.setPrecision 12 (Ctx.default 12) 0).1 = false :=
  (c8_setters 12 (Ctx.default 12) 0 0 (by norm_num [DECDPUN])).1.mpr
    (Or.inl (by norm_num))

/-! # C7 — `parse` -/

/-- C7 counterexample: `"1"` is well-formed (no NUL, grammar-conforming),
yet on a context that already carries the conversion-syntax flag from an
earlier failed parse (here of `"x"`), `parse` returns `Err`: the source
checks the context's *accumulated* status after the call, not a condition
raised by this call. -/
theorem c7_counterexample :
    decGrammar ['1'] = true ∧ hasNul ['1'] = false ∧
      (Ctx.parse 12 (Ctx.parse 12 (Ctx.default 12) ['x']).2 ['1']).1 =
        .error () := by
  refine ⟨by decide, by decide, by rfl⟩

/-- C7 (amended): on a context whose conversion-syntax flag is clear on
entry, `parse` returns `Err(ParseDecimalError)` exactly when the input is
malformed — it holds a NUL byte (`CString::new` fails) or violates the
General Decimal Arithmetic grammar (the parse raises conversion-syntax);
otherwise it returns `Ok` with the parsed number. (If the flag is already
set, `parse` returns `Err` regardless of the input.) -/
theorem c7_amended (n : Nat) (cx : Ctx) (s : List Char)
    (hclean : cx.status.convSyn = false) :
    (Ctx.parse n cx s).1 = .error () ↔
      (hasNul s = true ∨ decGrammar s = false) := by
  unfold Ctx.parse fromString
  by_cases hnul : hasNul s = true
  · simp [hnul]
  · have hnul' : hasNul s = false := by
      simpa using hnul
    by_cases hg : decGrammar s = true
    · simp [hnul', hg, hclean]
    · have hg' : decGrammar s = false := by
        simpa using hg
      simp [hnul', hg']

/-- Witness for C7's amended claim: parsing `"x"` on a clean width-12
default context fails. -/
theorem c7_amended_witness :
    (Ctx.parse 12 (Ctx.default 12) ['x']).1 = .error () :=
  (c7_amended 12 (Ctx.default 12) ['x'] (by decide)).mpr (Or.inr (by decide))

/-! # C10 — `PartialEq` and NaN -/

/-- C10: the `PartialEq` operator of `Decimal<N>` returns `false` whenever
either operand is a NaN (its `partial_cmp` is `None` then); in particular
the width-12 quiet NaN is not equal to itself, so `==` is not reflexive. -/
theorem c10_nan_neq :
    (∀ a b : Dec, (a.isNan || b.isNan) = true → decEqOp a b = false) ∧
      decEqOp (Dec.nan 12) (Dec.nan 12) = false ∧
      ¬ (∀ a : Dec, decEqOp a a = true) := by
  have h1 : ∀ a b : Dec, (a.isNan || b.isNan) = true → decEqOp a b = false := by
    intro a b h
    unfold decEqOp decCompare
    rw [if_pos h]
    rfl
  refine ⟨h1, h1 _ _ (by decide), ?_⟩
  intro hall
  have h2 := hall (Dec.nan 12)
  rw [h1 _ _ (by decide)] at h2
  exact Bool.false_ne_true h2

/-- Witness for C10 at a NaN and a zero of width 12. -/
theorem c10_nan_neq_witness :
    decEqOp (Dec.nan 12) (Dec.zero 12) = false :=
  c10_nan_neq.1 _ _ (by decide)

/-! # C3 — construction from machine integers -/

/-- C3 counterexample: converting the 39-digit `i128` value
`123456789012345678901234567890123456789` into a width-12 decimal
(default precision 36) sets status flags in the internally created default
context, so `debug_assert!(!cx.status().any())` in `From<i128> for
Decimal<12>` fails: the conversions are not flag-free for every `i128`
input. -/
theorem fromInt_rounds (n : Nat) (cx : Ctx) (v : Int)
    (h : ¬ v.natAbs < 10 ^ cx.digits.toNat) :
    ((cx.fromInt n v).2).status.rounded = true := by
  simp only [Ctx.fromInt]
  rw [if_neg h]

theorem any_of_rounded {s : Status} (h : s.rounded = true) : s.any = true := by
  unfold Status.any
  simp [h]

theorem c3_counterexample :
    ((Ctx.default 12).fromInt 12
        123456789012345678901234567890123456789).2.status.any = true :=
  any_of_rounded (fromInt_rounds 12 (Ctx.default 12) _ (by decide))

/-- C3 (amended): for every capacity `N ≥ 12` and every integer whose
magnitude fits in `3N` digits — which covers all `i32`, `u32`, `i64`,
`u64`, `isize` and `usize` inputs, since `2⁶⁴ < 10²⁰ ≤ 10³⁶ ≤ 10^(3N)` —
the `From` conversion is exact (the produced decimal's value equals the
input) and the internally created default context keeps a clear status, so
the debug assertions hold there; `i128`/`u128` inputs beyond `3N` digits
set flags instead (see the counterexample). -/
theorem c3_amended (n : Nat) (v : Int) (_hn : 12 ≤ n)
    (hv : v.natAbs < 10 ^ (n * DECDPUN)) :
    ((Ctx.default n).fromInt n v).1.val = (v : ℚ) ∧
      ((Ctx.default n).fromInt n v).2 = Ctx.default n ∧
      ((Ctx.default n).fromInt n v).2.status.any = false := by
  have hpp : ((Ctx.default n).digits).toNat = n * DECDPUN :=
    Int.toNat_natCast _
  have hcond : v.natAbs < 10 ^ ((Ctx.default n).digits).toNat := by
    rw [hpp]
    exact hv
  have h1000 : (1000 : Nat) ^ n = 10 ^ (n * DECDPUN) := by
    have h3 : n * DECDPUN = 3 * n := by
      simp [DECDPUN]
      ring
    rw [h3, pow_mul]
    norm_num
  have hlsu : lsuVal (toLsu n v.natAbs) = v.natAbs := by
    apply lsuVal_toLsu
    omega
  have hfst : ((Ctx.default n).fromInt n v).1 =
      ⟨numDigits v.natAbs, 0, if v < 0 then DECNEG else 0, toLsu n v.natAbs⟩ := by
    simp only [Ctx.fromInt]
    rw [if_pos hcond]
  have hsnd : ((Ctx.default n).fromInt n v).2 = Ctx.default n := by
    simp only [Ctx.fromInt]
    rw [if_pos hcond]
  refine ⟨?_, hsnd, by rw [hsnd]; rfl⟩
  rw [hfst]
  unfold Dec.val Dec.isNegative
  simp only [hlsu]
  by_cases hv0 : v < 0
  · rw [if_pos hv0]
    have hneg : ((DECNEG &&& DECNEG != 0) : Bool) = true := by decide
    simp only [hneg, if_pos (le_refl (0 : Int)), Int.toNat_zero, pow_zero,
      if_true, Int.cast_natAbs]
    rw [abs_of_neg (by exact_mod_cast hv0)]
    push_cast
    ring
  · rw [if_neg hv0]
    have hneg : ((0 &&& DECNEG != 0) : Bool) = false := by decide
    simp only [hneg, if_pos (le_refl (0 : Int)), Int.toNat_zero, pow_zero,
      Bool.false_eq_true, if_false, Int.cast_natAbs]
    rw [abs_of_nonneg (by exact_mod_cast not_lt.mp hv0)]
    ring

/-- Witness for C3's amended claim at `N = 12`, input `-42`. -/
theorem c3_amended_witness :
    ((Ctx.default 12).fromInt 12 (-42)).1.val = (-42 : ℚ) ∧
      ((Ctx.default 12).fromInt 12 (-42)).2 = Ctx.default 12 := by
  have h := c3_amended 12 (-42) (by norm_num) (by norm_num [DECDPUN])
  exact ⟨h.1, h.2.1⟩

/-! # C1 — `to_width` overflow branch -/

/-- C1 counterexample: against the reachable width-12 context whose
`max_exponent` was set to 0, the decimal `12345 · 10⁻¹` has adjusted
exponent 3, exceeding `emax = 0` — yet `to_width` returns it unchanged
(finite, no `overflow` flag), because the source's overflow branch demands
`m.exponent() >= 0` and this exponent is negative. -/
theorem c1_counterexample :
    ((Ctx.default 12).setMaxExponent 0).2.emax <
        (⟨5, -1, 0, toLsu 12 12345⟩ : Dec).adjExp ∧
      ((((Ctx.default 12).setMaxExponent 0).2.toWidth 12 12
          ⟨5, -1, 0, toLsu 12 12345⟩).map fun p => p.1.isInfinite) =
        some false ∧
      ((((Ctx.default 12).setMaxExponent 0).2.toWidth 12 12
          ⟨5, -1, 0, toLsu 12 12345⟩).map fun p => p.2.status.overflow) =
        some false := by
  refine ⟨by decide, by decide, by decide⟩

/-- C1 (amended): for every source decimal with a *non-negative* exponent
whose adjusted exponent exceeds the target context's `max_exponent`,
`to_width` returns an infinity carrying the source's sign and adds exactly
`inexact | overflow | rounded` to the context's status. (With a negative
exponent the overflow branch is skipped, as the counterexample shows.) -/
theorem c1_amended (n mSz : Nat) (cx : Ctx) (m : Dec) (hexp : 0 ≤ m.exponent)
    (hadj : cx.emax < m.adjExp) :
    cx.toWidth n mSz m =
      some ((if m.isNegative then (Dec.infinity n).negate else Dec.infinity n),
        cx.addStatus statusIOR) := by
  have hprec : (m.precision : Int) = (m.digits : Int) + m.exponent := by
    unfold Dec.precision
    rw [if_pos hexp]
    push_cast
    rw [abs_of_nonneg hexp]
  have hadj2 : cx.emax < (m.digits : Int) + m.exponent - 1 := hadj
  have hcond : 0 ≤ m.exponent ∧ ((m.precision : Int) > cx.emax) := by
    refine ⟨hexp, ?_⟩
    rw [hprec]
    omega
  unfold Ctx.toWidth
  rw [if_pos hcond]

/-- Witness for C1's amended claim: `45 · 10⁰` against a context with
`max_exponent` 0 casts to positive infinity with the three flags added. -/
theorem c1_amended_witness :
    ((Ctx.default 12).setMaxExponent 0).2.toWidth 12 12 ⟨2, 0, 0, toLsu 12 45⟩ =
      some ((if (⟨2, 0, 0, toLsu 12 45⟩ : Dec).isNegative
              then (Dec.infinity 12).negate else Dec.infinity 12),
        (((Ctx.default 12).setMaxExponent 0).2).addStatus statusIOR) :=
  c1_amended 12 12 _ _ (by decide) (by decide)

/-! # C2 — `to_width` underflow branch assertion -/

/-- C2: the underflow-branch assertion fails on the code. With
`M = N = 12`, a context whose `min_exponent` was set to −2, and the source
`100 · 10⁻²` (digits 3, exponent −2, value 1.00), the branch is taken —
the exponent is negative and the precision 3 exceeds `|−2|` — but the
rescale to exponent −2 discards no digits and is exact: the `inexact` flag
stays clear, so `assert!(cx_m.status().inexact())` panics (modelled as
`none`) instead of terminating normally with the four flags added. -/
theorem c2_assert_fails :
    ((Ctx.default 12).setMinExponent (-2)).2.toWidth 12 12
        ⟨3, -2, 0, toLsu 12 100⟩ = none ∧
      (rescale 12 (Ctx.default 12) ⟨3, -2, 0, toLsu 12 100⟩
          (((Ctx.default 12).setMinExponent (-2)).2.emin)).2.status.inexact =
        false := by
  refine ⟨by decide, by decide⟩

/-! # C4 — `total_cmp` is a strict total order -/

/-- C4: `total_cmp` is a strict total order on `Decimal<N>` values: every
comparison returns exactly one of Less/Equal/Greater; `total_cmp(a,a)` is
`Equal` for every `a`, NaNs included; `total_cmp(a,b)` is the reverse of
`total_cmp(b,a)`; and the order is transitive (in `Less`, hence by the
reversal also in `Greater`, and in `Equal`). -/
theorem c4_total_order :
    (∀ a b : Dec, totalCmp a b = .lt ∨ totalCmp a b = .eq ∨ totalCmp a b = .gt) ∧
      (∀ a : Dec, totalCmp a a = .eq) ∧
      (∀ a b : Dec, totalCmp a b = (totalCmp b a).swap) ∧
      (∀ a b c : Dec, totalCmp a b = .lt → totalCmp b c = .lt →
        totalCmp a c = .lt) ∧
      (∀ a b c : Dec, totalCmp a b = .eq → totalCmp b c = .eq →
        totalCmp a c = .eq) := by
  refine ⟨?_, ?_, ?_, ?_, ?_⟩
  · intro a b
    cases totalCmp a b
    · exact Or.inl rfl
    · exact Or.inr (Or.inl rfl)
    · exact Or.inr (Or.inr rfl)
  · intro a
    exact cmp3_self _
  · intro a b
    exact cmp3_swap _ _
  · intro a b c h1 h2
    exact cmp3_trans_lt h1 h2
  · intro a b c h1 h2
    exact cmp3_trans_eq h1 h2

/-- Witness for C4: transitivity at `-1 < 0 < +∞` (width 12). -/
theorem c4_total_order_witness :
    totalCmp ⟨1, 0, DECNEG, toLsu 12 1⟩ (Dec.infinity 12) = .lt :=
  c4_total_order.2.2.2.1 ⟨1, 0, DECNEG, toLsu 12 1⟩ (Dec.zero 12)
    (Dec.infinity 12) (by decide) (by decide)

/-! # C9 — deserialization -/

theorem cntD_cons_digits (v : Nat) (rest : List DeEntry) :
    cntD (.digits v :: rest) = cntD rest + 1 := by
  simp [cntD, List.countP_cons]

theorem cntE_cons_exponent (v : Int) (rest : List DeEntry) :
    cntE (.exponent v :: rest) = cntE rest + 1 := by
  simp [cntE, List.countP_cons]

theorem cntB_cons_bits (v : Nat) (rest : List DeEntry) :
    cntB (.bits v :: rest) = cntB rest + 1 := by
  simp [cntB, List.countP_cons]

theorem cntL_cons_lsu (v : List Nat) (rest : List DeEntry) :
    cntL (.lsu v :: rest) = cntL rest + 1 := by
  simp [cntL, List.countP_cons]

theorem lsuEntries_length (es : List DeEntry) :
    (lsuEntries es).length = cntL es := by
  induction es with
  | nil => simp [lsuEntries, cntL]
  | cons x rest ih =>
    cases x <;> simp [lsuEntries, cntL, List.countP_cons] <;>
      simpa [lsuEntries, cntL] using ih

theorem vLoop_ok_iff (es : List DeEntry) :
    ∀ (od : Option Nat) (oe : Option Int) (ob : Option Nat)
      (ol : Option (List Nat)),
    (∃ r, vLoop es od oe ob ol = .ok r) ↔
      ((if od.isSome then 1 else 0) + cntD es ≤ 1 ∧
        (if oe.isSome then 1 else 0) + cntE es ≤ 1 ∧
        (if ob.isSome then 1 else 0) + cntB es ≤ 1 ∧
        (if ol.isSome then 1 else 0) + cntL es ≤ 1) := by
  induction es with
  | nil =>
    intro od oe ob ol
    simp only [vLoop, cntD, cntE, cntB, cntL, List.countP_nil]
    constructor
    · intro _
      refine ⟨?_, ?_, ?_, ?_⟩ <;> split_ifs <;> omega
    · intro _
      exact ⟨_, rfl⟩
  | cons x rest ih =>
    intro od oe ob ol
    cases x with
    | digits v =>
      by_cases hd : od.isSome
      · constructor
        · rintro ⟨r, hr⟩
          rw [vLoop, if_pos hd] at hr
          exact absurd hr (by simp)
        · intro h
          exfalso
          have h1 := h.1
          rw [if_pos hd, cntD_cons_digits] at h1
          omega
      · rw [vLoop, if_neg hd, ih (some v) oe ob ol]
        rw [cntD_cons_digits]
        have he : cntE (DeEntry.digits v :: rest) = cntE rest := by
          simp [cntE, List.countP_cons]
        have hb : cntB (DeEntry.digits v :: rest) = cntB rest := by
          simp [cntB, List.countP_cons]
        have hl : cntL (DeEntry.digits v :: rest) = cntL rest := by
          simp [cntL, List.countP_cons]
        rw [he, hb, hl]
        simp only [Option.isSome_some, if_true]
        rw [if_neg hd]
        omega
    | exponent v =>
      by_cases hd : oe.isSome
      · constructor
        · rintro ⟨r, hr⟩
          rw [vLoop, if_pos hd] at hr
          exact absurd hr (by simp)
        · intro h
          exfalso
          have h1 := h.2.1
          rw [if_pos hd, cntE_cons_exponent] at h1
          omega
      · rw [vLoop, if_neg hd, ih od (some v) ob ol]
        rw [cntE_cons_exponent]
        have he : cntD (DeEntry.exponent v :: rest) = cntD rest := by
          simp [cntD, List.countP_cons]
        have hb : cntB (DeEntry.exponent v :: rest) = cntB rest := by
          simp [cntB, List.countP_cons]
        have hl : cntL (DeEntry.exponent v :: rest) = cntL rest := by
          simp [cntL, List.countP_cons]
        rw [he, hb, hl]
        simp only [Option.isSome_some, if_true]
        rw [if_neg hd]
        omega
    | bits v =>
      by_cases hd : ob.isSome
      · constructor
        · rintro ⟨r, hr⟩
          rw [vLoop, if_pos hd] at hr
          exact absurd hr (by simp)
        · intro h
          exfalso
          have h1 := h.2.2.1
          rw [if_pos hd, cntB_cons_bits] at h1
          omega
      · rw [vLoop, if_neg hd, ih od oe (some v) ol]
        rw [cntB_cons_bits]
        have he : cntD (DeEntry.bits v :: rest) = cntD rest := by
          simp [cntD, List.countP_cons]
        have hb : cntE (DeEntry.bits v :: rest) = cntE rest := by
          simp [cntE, List.countP_cons]
        have hl : cntL (DeEntry.bits v :: rest) = cntL rest := by
          simp [cntL, List.countP_cons]
        rw [he, hb, hl]
        simp only [Option.isSome_some, if_true]
        rw [if_neg hd]
        omega
    | lsu v =>
      by_cases hd : ol.isSome
      · constructor
        · rintro ⟨r, hr⟩
          rw [vLoop, if_pos hd] at hr
          exact absurd hr (by simp)
        · intro h
          exfalso
          have h1 := h.2.2.2
          rw [if_pos hd, cntL_cons_lsu] at h1
          omega
      · rw [vLoop, if_neg hd, ih od oe ob (some v)]
        rw [cntL_cons_lsu]
        have he : cntD (DeEntry.lsu v :: rest) = cntD rest := by
          simp [cntD, List.countP_cons]
        have hb : cntE (DeEntry.lsu v :: rest) = cntE rest := by
          simp [cntE, List.countP_cons]
        have hl : cntB (DeEntry.lsu v :: rest) = cntB rest := by
          simp [cntB, List.countP_cons]
        rw [he, hb, hl]
        simp only [Option.isSome_some, if_true]
        rw [if_neg hd]
        omega

theorem vLoop_ok_out (es : List DeEntry) :
    ∀ (od : Option Nat) (oe : Option Int) (ob : Option Nat)
      (ol : Option (List Nat)) r,
    vLoop es od oe ob ol = .ok r →
      r.1.isSome = (od.isSome || decide (0 < cntD es)) ∧
        r.2.1.isSome = (oe.isSome || decide (0 < cntE es)) ∧
        r.2.2.1.isSome = (ob.isSome || decide (0 < cntB es)) ∧
        r.2.2.2 = (if ol.isSome then ol else (lsuEntries es).head?) := by
  induction es with
  | nil =>
    intro od oe ob ol r h
    rw [vLoop] at h
    cases h
    refine ⟨by simp [cntD], by simp [cntE], by simp [cntB], ?_⟩
    cases ol <;> simp [lsuEntries]
  | cons x rest ih =>
    intro od oe ob ol r h
    cases x with
    | digits v =>
      by_cases hd : od.isSome
      · rw [vLoop, if_pos hd] at h
        exact absurd h (by simp)
      · rw [vLoop, if_neg hd] at h
        have := ih (some v) oe ob ol r h
        rw [cntD_cons_digits]
        have he : cntE (DeEntry.digits v :: rest) = cntE rest := by
          simp [cntE, List.countP_cons]
        have hb : cntB (DeEntry.digits v :: rest) = cntB rest := by
          simp [cntB, List.countP_cons]
        have hl : lsuEntries (DeEntry.digits v :: rest) = lsuEntries rest := by
          simp [lsuEntries]
        rw [he, hb, hl]
        simp only [Option.isSome_some, Bool.true_or] at this
        refine ⟨?_, this.2.1, this.2.2.1, this.2.2.2⟩
        rw [this.1]
        have hd' : od.isSome = false := by
          simpa using hd
        rw [hd']
        simp
    | exponent v =>
      by_cases hd : oe.isSome
      · rw [vLoop, if_pos hd] at h
        exact absurd h (by simp)
      · rw [vLoop, if_neg hd] at h
        have := ih od (some v) ob ol r h
        rw [cntE_cons_exponent]
        have he : cntD (DeEntry.exponent v :: rest) = cntD rest := by
          simp [cntD, List.countP_cons]
        have hb : cntB (DeEntry.exponent v :: rest) = cntB rest := by
          simp [cntB, List.countP_cons]
        have hl : lsuEntries (DeEntry.exponent v :: rest) = lsuEntries rest := by
          simp [lsuEntries]
        rw [he, hb, hl]
        simp only [Option.isSome_some, Bool.true_or] at this
        refine ⟨this.1, ?_, this.2.2.1, this.2.2.2⟩
        rw [this.2.1]
        have hd' : oe.isSome = false := by
          simpa using hd
        rw [hd']
        simp
    | bits v =>
      by_cases hd : ob.isSome
      · rw [vLoop, if_pos hd] at h
        exact absurd h (by simp)
      · rw [vLoop, if_neg hd] at h
        have := ih od oe (some v) ol r h
        rw [cntB_cons_bits]
        have he : cntD (DeEntry.bits v :: rest) = cntD rest := by
          simp [cntD, List.countP_cons]
        have hb : cntE (DeEntry.bits v :: rest) = cntE rest := by
          simp [cntE, List.countP_cons]
        have hl : lsuEntries (DeEntry.bits v :: rest) = lsuEntries rest := by
          simp [lsuEntries]
        rw [he, hb, hl]
        simp only [Option.isSome_some, Bool.true_or] at this
        refine ⟨this.1, this.2.1, ?_, this.2.2.2⟩
        rw [this.2.2.1]
        have hd' : ob.isSome = false := by
          simpa using hd
        rw [hd']
        simp
    | lsu v =>
      by_cases hd : ol.isSome
      · rw [vLoop, if_pos hd] at h
        exact absurd h (by simp)
      · rw [vLoop, if_neg hd] at h
        have := ih od oe ob (some v) r h
        have he : cntD (DeEntry.lsu v :: rest) = cntD rest := by
          simp [cntD, List.countP_cons]
        have hb : cntE (DeEntry.lsu v :: rest) = cntE rest := by
          simp [cntE, List.countP_cons]
        have hq : cntB (DeEntry.lsu v :: rest) = cntB rest := by
          simp [cntB, List.countP_cons]
        have hl : lsuEntries (DeEntry.lsu v :: rest) = v :: lsuEntries rest := by
          simp [lsuEntries]
        rw [he, hb, hq, hl]
        simp only [Option.isSome_some, if_true] at this
        refine ⟨this.1, this.2.1, this.2.2.1, ?_⟩
        rw [this.2.2.2]
        have hd' : ol.isSome = false := by
          simpa using hd
        rw [hd']
        simp
  
theorem vLoop_error_dup (es : List DeEntry) :
    ∀ (od : Option Nat) (oe : Option Int) (ob : Option Nat)
      (ol : Option (List Nat)) err,
    vLoop es od oe ob ol = .error err → ∃ f, err = .duplicateField f := by
  induction es with
  | nil =>
    intro od oe ob ol err h
    rw [vLoop] at h
    exact absurd h (by simp)
  | cons x rest ih =>
    intro od oe ob ol err h
    cases x with
    | digits v =>
      by_cases hd : od.isSome
      · rw [vLoop, if_pos hd] at h
        cases h
        exact ⟨_, rfl⟩
      · rw [vLoop, if_neg hd] at h
        exact ih _ _ _ _ _ h
    | exponent v =>
      by_cases hd : oe.isSome
      · rw [vLoop, if_pos hd] at h
        cases h
        exact ⟨_, rfl⟩
      · rw [vLoop, if_neg hd] at h
        exact ih _ _ _ _ _ h
    | bits v =>
      by_cases hd : ob.isSome
      · rw [vLoop, if_pos hd] at h
        cases h
        exact ⟨_, rfl⟩
      · rw [vLoop, if_neg hd] at h
        exact ih _ _ _ _ _ h
    | lsu v =>
      by_cases hd : ol.isSome
      · rw [vLoop, if_pos hd] at h
        cases h
        exact ⟨_, rfl⟩
      · rw [vLoop, if_neg hd] at h
        exact ih _ _ _ _ _ h

theorem visitMap_reaches_check (n : Nat) (es : List DeEntry)
    (h1 : cntD es = 1) (h2 : cntE es = 1) (h3 : cntB es = 1)
    (l : List Nat) (hL : lsuEntries es = [l]) :
    (l.length = n → ∃ d, visitMap n es = .ok d) ∧
      (l.length ≠ n → visitMap n es = .error (.invalidValue l.length n)) := by
  have h4 : cntL es = 1 := by
    rw [← lsuEntries_length, hL]
    rfl
  have hex : ∃ r, vLoop es none none none none = .ok r := by
    rw [vLoop_ok_iff]
    simp only [Option.isSome_none, Bool.false_eq_true, if_false]
    omega
  obtain ⟨⟨r1, r2, r3, r4⟩, hv⟩ := hex
  obtain ⟨ho1, ho2, ho3, ho4⟩ := vLoop_ok_out es none none none none _ hv
  simp only [Option.isSome_none, Bool.false_or, Bool.false_eq_true, if_false,
    hL, List.head?_cons, h1, h2, h3] at ho1 ho2 ho3 ho4
  obtain ⟨d0, hr1⟩ := Option.isSome_iff_exists.mp (by rw [ho1]; simp)
  obtain ⟨e0, hr2⟩ := Option.isSome_iff_exists.mp (by rw [ho2]; simp)
  obtain ⟨b0, hr3⟩ := Option.isSome_iff_exists.mp (by rw [ho3]; simp)
  subst hr1 hr2 hr3 ho4
  constructor
  · intro hlen
    refine ⟨⟨d0, e0, b0, l⟩, ?_⟩
    unfold visitMap
    rw [hv]
    simp [hlen]
  · intro hlen
    unfold visitMap
    rw [hv]
    simp [hlen]

theorem visitMap_of_vLoop_ok {n : Nat} {es : List DeEntry}
    {r1 : Option Nat} {r2 : Option Int} {r3 : Option Nat}
    {r4 : Option (List Nat)}
    (hv : vLoop es none none none none = .ok (r1, r2, r3, r4)) :
    visitMap n es =
      (match r1 with
      | none => .error (.missingField "digits")
      | some d =>
        match r2 with
        | none => .error (.missingField "exponent")
        | some e =>
          match r3 with
          | none => .error (.missingField "bits")
          | some b =>
            match r4 with
            | none => .error (.missingField "lsu")
            | some l =>
              if l.length = n then .ok ⟨d, e, b, l⟩
              else .error (.invalidValue l.length n)) := by
  unfold visitMap
  simp only [hv]
  cases r1 <;> cases r2 <;> cases r3 <;> cases r4 <;> rfl

/-- C9: deserialization of a `Decimal<N>` from a field map succeeds exactly
on input providing each of the four fields `digits`, `exponent`, `bits`,
`lsu` once, with the `lsu` array of length `N`; when the fields are right
but the `lsu` length is not `N`, the error is the length-mismatch error
naming the found and the expected length; any duplicated field yields a
duplicate-field error; any missing field prevents success. -/
theorem c9_deser (n : Nat) (es : List DeEntry) :
    ((∃ d, visitMap n es = .ok d) ↔
      (cntD es = 1 ∧ cntE es = 1 ∧ cntB es = 1 ∧ cntL es = 1 ∧
        ∀ l ∈ lsuEntries es, l.length = n)) ∧
      (∀ l, cntD es = 1 → cntE es = 1 → cntB es = 1 → lsuEntries es = [l] →
        l.length ≠ n → visitMap n es = .error (.invalidValue l.length n)) ∧
      ((2 ≤ cntD es ∨ 2 ≤ cntE es ∨ 2 ≤ cntB es ∨ 2 ≤ cntL es) →
        ∃ f, visitMap n es = .error (.duplicateField f)) := by
  refine ⟨⟨?_, ?_⟩, ?_, ?_⟩
  · rintro ⟨d, hd⟩
    have hok : ∃ r, vLoop es none none none none = .ok r := by
      cases hv : vLoop es none none none none with
      | error err =>
        rw [visitMap] at hd
        rw [hv] at hd
        exact absurd hd (by simp)
      | ok r => exact ⟨r, rfl⟩
    obtain ⟨⟨r1, r2, r3, r4⟩, hv⟩ := hok
    have hcnts := (vLoop_ok_iff es none none none none).mp ⟨_, hv⟩
    simp only [Option.isSome_none, Bool.false_eq_true, if_false] at hcnts
    obtain ⟨ho1, ho2, ho3, ho4⟩ := vLoop_ok_out es none none none none _ hv
    simp only [Option.isSome_none, Bool.false_or, Bool.false_eq_true,
      if_false] at ho1 ho2 ho3 ho4
    rw [visitMap_of_vLoop_ok hv] at hd
    cases r1 with
    | none => exact absurd hd (by simp)
    | some d0 =>
    cases r2 with
    | none => exact absurd hd (by simp)
    | some e0 =>
    cases r3 with
    | none => exact absurd hd (by simp)
    | some b0 =>
    cases r4 with
    | none => exact absurd hd (by simp)
    | some l =>
    have hd' : (if l.length = n then (Except.ok ⟨d0, e0, b0, l⟩ : Except DeError Dec)
        else .error (.invalidValue l.length n)) = .ok d := hd
    have hd1 : 0 < cntD es := by
      simpa using ho1.symm
    have he1 : 0 < cntE es := by
      simpa using ho2.symm
    have hb1 : 0 < cntB es := by
      simpa using ho3.symm
    have hlsu : (lsuEntries es).head? = some l := ho4.symm
    have hl1 : 0 < cntL es := by
      rw [← lsuEntries_length]
      cases hLL : lsuEntries es with
      | nil =>
        rw [hLL] at hlsu
        exact absurd hlsu (by simp)
      | cons a t => simp
    have hlen : l.length = n := by
      by_contra hne
      rw [if_neg hne] at hd'
      exact absurd hd' (by simp)
    refine ⟨by omega, by omega, by omega, by omega, ?_⟩
    cases hLL : lsuEntries es with
    | nil =>
      intro x hx
      exact absurd hx (by simp)
    | cons a t =>
      have hteq : t = [] := by
        have hle := lsuEntries_length es
        rw [hLL] at hle
        have hc1 : cntL es ≤ 1 := by omega
        simp at hle
        have ht0 : t.length = 0 := by omega
        exact List.eq_nil_of_length_eq_zero ht0
      subst hteq
      rw [hLL] at hlsu
      simp at hlsu
      subst hlsu
      intro x hx
      simp at hx
      subst hx
      exact hlen
  · rintro ⟨h1, h2, h3, h4, h5⟩
    have hone : ∃ l, lsuEntries es = [l] := by
      have hlen := lsuEntries_length es
      rw [h4] at hlen
      cases hLL : lsuEntries es with
      | nil =>
        rw [hLL] at hlen
        simp at hlen
      | cons a t =>
        rw [hLL] at hlen
        simp at hlen
        exact ⟨a, by rw [hlen]⟩
    obtain ⟨l, hL⟩ := hone
    have hmem : l.length = n := h5 l (by rw [hL]; simp)
    exact (visitMap_reaches_check n es h1 h2 h3 l hL).1 hmem
  · intro l h1 h2 h3 hL hlen
    exact (visitMap_reaches_check n es h1 h2 h3 l hL).2 hlen
  · intro hdup
    cases hv : vLoop es none none none none with
    | ok r =>
      exfalso
      have hcnts := (vLoop_ok_iff es none none none none).mp ⟨_, hv⟩
      simp only [Option.isSome_none, Bool.false_eq_true, if_false] at hcnts
      omega
    | error err =>
      obtain ⟨f, rfl⟩ := vLoop_error_dup es _ _ _ _ _ hv
      refine ⟨f, ?_⟩
      rw [visitMap]
      rw [hv]

/-- Witness for C9: a map with all four fields once but a 2-unit `lsu`
against `N = 12` fails with the length-mismatch error naming 2 and 12. -/
theorem c9_deser_witness :
    visitMap 12 [.digits 1, .exponent 0, .bits 0, .lsu [0, 0]] =
      .error (.invalidValue 2 12) :=
  (c9_deser 12 [.digits 1, .exponent 0, .bits 0, .lsu [0, 0]]).2.1 [0, 0]
    (by decide) (by decide) (by decide) (by decide) (by decide)
